import Mathlib

/-!
Shallow embedding of `src/value.go` (package pongo2): the dynamic `Value`
wrapper used by the template engine, its kind predicates, coercions,
truthiness, negation, equality, containment, indexing/slicing, the
iteration protocol and the shared sort comparator.

Modelling conventions:
* A raw Go datum (`reflect.Value`) is modelled by the closed union `Datum`.
  The integer family collapses to `intD` (Go `int`, i.e. kind `reflect.Int`)
  and `uintD` (Go `uint`, kind `reflect.Uint`); the float family collapses
  to `floatD` carrying an exact rational (Go `float64` values; arithmetic
  and comparisons in the claims stay far away from rounding boundaries).
* `nilD` models an invalid `reflect.Value` (e.g. `reflect.ValueOf(nil)`).
* `ptrD d` models a pointer whose `Elem()` is `d` (a nil pointer is
  `ptrD nilD`, whose `Elem()` is invalid).
* `timeD t` models a `time.Time` carrying its instant `t`; its reflect
  kind is `Struct`, and it implements `fmt.Stringer`.
* `mapD kk es` models a Go map with declared key kind `kk` and entry
  snapshot `es` (the order of `es` models the order `MapKeys` yields).
* Diagnostics (`logf`) are fire-and-forget; they are modelled only where a
  claim mentions them (`Index` returns a flag telling whether the default
  branch logged).
-/

/-- Go `reflect.Kind`, restricted to the kinds the model can produce. -/
inductive Kind where
  | invalid
  | boolK
  | intK
  | uintK
  | floatK
  | stringK
  | sliceK
  | mapK
  | structK
  | ptrK
deriving DecidableEq, Repr

/-- A raw runtime datum, as wrapped by `reflect.ValueOf` in `AsValue`. -/
inductive Datum where
  | nilD
  | boolD (b : Bool)
  | intD (n : Int)
  | uintD (n : Nat)
  | floatD (q : Rat)
  | strD (s : String)
  | timeD (t : Int)
  | seqD (xs : List Datum)
  | mapD (keyKind : Kind) (entries : List (Datum × Datum))
  | structD (fields : List (String × Datum))
  | ptrD (d : Datum)

mutual

/-- Go `==` / map-key equality on data, structural in the model (pointer
identity collapses to structural equality of the pointee, which no claim
observes). -/
def Datum.beq : Datum → Datum → Bool
  | .nilD, .nilD => true
  | .boolD a, .boolD b => a == b
  | .intD a, .intD b => a == b
  | .uintD a, .uintD b => a == b
  | .floatD a, .floatD b => a == b
  | .strD a, .strD b => a == b
  | .timeD a, .timeD b => a == b
  | .seqD xs, .seqD ys => Datum.beqList xs ys
  | .mapD k1 e1, .mapD k2 e2 => k1 == k2 && Datum.beqEntries e1 e2
  | .structD f1, .structD f2 => Datum.beqFields f1 f2
  | .ptrD a, .ptrD b => Datum.beq a b
  | _, _ => false

/-- Elementwise `Datum.beq` on lists. -/
def Datum.beqList : List Datum → List Datum → Bool
  | [], [] => true
  | x :: xs, y :: ys => Datum.beq x y && Datum.beqList xs ys
  | _, _ => false

/-- Elementwise `Datum.beq` on map entry lists. -/
def Datum.beqEntries : List (Datum × Datum) → List (Datum × Datum) → Bool
  | [], [] => true
  | (k1, v1) :: xs, (k2, v2) :: ys =>
      Datum.beq k1 k2 && Datum.beq v1 v2 && Datum.beqEntries xs ys
  | _, _ => false

/-- Elementwise `Datum.beq` on struct field lists. -/
def Datum.beqFields : List (String × Datum) → List (String × Datum) → Bool
  | [], [] => true
  | (n1, d1) :: xs, (n2, d2) :: ys =>
      n1 == n2 && Datum.beq d1 d2 && Datum.beqFields xs ys
  | _, _ => false

end

instance : BEq Datum := ⟨Datum.beq⟩

/-- `reflect.Value.Kind()` of a datum (`Invalid` for an invalid value). -/
def Datum.goKind : Datum → Kind
  | .nilD => .invalid
  | .boolD _ => .boolK
  | .intD _ => .intK
  | .uintD _ => .uintK
  | .floatD _ => .floatK
  | .strD _ => .stringK
  | .timeD _ => .structK
  | .seqD _ => .sliceK
  | .mapD _ _ => .mapK
  | .structD _ => .structK
  | .ptrD _ => .ptrK

/-- `reflect.Value.IsValid()`. -/
def Datum.isValid : Datum → Bool
  | .nilD => false
  | _ => true

/-- `reflect.Value.Len()` for the kinds Go allows it on: element count for
slices/arrays/maps, BYTE length for strings (Go `Len` on a string counts
bytes, unlike `Value.Len` which counts runes). Other kinds never reach it
in the embedded code. -/
def Datum.rawLen : Datum → Nat
  | .seqD xs => xs.length
  | .mapD _ es => es.length
  | .strD s => s.utf8ByteSize
  | _ => 0

/-- The `pongo2.Value` struct: a raw datum plus the safety marker. -/
structure Value where
  val : Datum
  safe : Bool

/-- `AsValue`: wraps a datum with `safe = false`. -/
def AsValue (d : Datum) : Value := ⟨d, false⟩

/-- `AsSafeValue`: wraps a datum with `safe = true`. -/
def AsSafeValue (d : Datum) : Value := ⟨d, true⟩

/-- `Value.getResolvedValue`: follows exactly one level of pointer
indirection (`v.val.Elem()`) when the raw value is a valid pointer. -/
def Value.getResolvedValue (v : Value) : Datum :=
  match v.val with
  | .ptrD d => d
  | d => d

/-- `Value.IsString`. -/
def Value.IsString (v : Value) : Bool :=
  v.getResolvedValue.goKind = .stringK

/-- `Value.IsBool`. -/
def Value.IsBool (v : Value) : Bool :=
  v.getResolvedValue.goKind = .boolK

/-- `Value.IsFloat`. -/
def Value.IsFloat (v : Value) : Bool :=
  v.getResolvedValue.goKind = .floatK

/-- `Value.IsInteger`: the integer/unsigned kind family. -/
def Value.IsInteger (v : Value) : Bool :=
  v.getResolvedValue.goKind = .intK || v.getResolvedValue.goKind = .uintK

/-- `Value.IsNumber`. -/
def Value.IsNumber (v : Value) : Bool :=
  v.IsInteger || v.IsFloat

/-- `Value.Interface()` returns the RAW value (`v.val.Interface()`), nil if
invalid; in the model the raw datum itself. -/
def Value.InterfaceD (v : Value) : Datum :=
  v.val

/-- `Value.IsTime`: the type assertion `v.Interface().(time.Time)` — note
it inspects the RAW value, not the resolved one, so a pointer to a
`time.Time` does not satisfy it. -/
def Value.IsTime (v : Value) : Bool :=
  match v.val with
  | .timeD _ => true
  | _ => false

/-- `Value.IsNil`: the resolved value is invalid. -/
def Value.IsNil (v : Value) : Bool :=
  !v.getResolvedValue.isValid

/-- `Value.Time`: the instant if the RAW value is a `time.Time`, else the
zero time (instant 0 in the model). -/
protected def Value.Time (v : Value) : Int :=
  match v.val with
  | .timeD t => t
  | _ => 0

/-- `Value.Bool`: strict accessor — only a boolean kind returns its value. -/
protected def Value.Bool (v : Value) : Bool :=
  match v.getResolvedValue with
  | .boolD b => b
  | _ => false

/-- Digits to a natural number, base 10. -/
def digitsToNat (cs : List Char) : Nat :=
  cs.foldl (fun acc c => acc * 10 + (c.toNat - 48)) 0

/-- Models the host library `strconv.ParseFloat(s, 64)` on plain decimal
literals: optional sign, integer digits, optional fraction, optional
decimal exponent. (The host parser also accepts hex floats and
inf/NaN spellings; no claim exercises the parser at all, it is reached
only by the string branches of `Integer`/`Float`.) -/
def strconvParseFloat (s : String) : Option Rat :=
  let cs := s.data
  let signAndRest : Bool × List Char :=
    match cs with
    | '-' :: rest => (true, rest)
    | '+' :: rest => (false, rest)
    | rest => (false, rest)
  let neg := signAndRest.1
  let mantExp := signAndRest.2.span (fun c => c ≠ 'e' && c ≠ 'E')
  let mant := mantExp.1
  let intFrac := mant.span (fun c => c ≠ '.')
  let ip := intFrac.1
  let fp := match intFrac.2 with
    | '.' :: rest => rest
    | _ => []
  let expPart : Option Int :=
    match mantExp.2 with
    | [] => some 0
    | _ :: '+' :: ds => if ds.all Char.isDigit && ds ≠ [] then some (digitsToNat ds) else none
    | _ :: '-' :: ds => if ds.all Char.isDigit && ds ≠ [] then some (-(digitsToNat ds : Int)) else none
    | _ :: ds => if ds.all Char.isDigit && ds ≠ [] then some (digitsToNat ds) else none
  if ip.all Char.isDigit && fp.all Char.isDigit && (ip ≠ [] || fp ≠ []) &&
      (intFrac.2 = [] || intFrac.2.take 1 = ['.']) then
    match expPart with
    | some e =>
        let base : Rat := (digitsToNat (ip ++ fp) : Rat) / ((10 : Rat) ^ fp.length)
        let scaled := base * (10 : Rat) ^ e
        some (if neg then -scaled else scaled)
    | none => none
  else
    none

/-- Go `uint64` to `int` conversion: two's-complement wraparound. -/
def uintToInt (n : Nat) : Int :=
  if n % 2 ^ 64 < 2 ^ 63 then ((n % 2 ^ 64 : Nat) : Int)
  else ((n % 2 ^ 64 : Nat) : Int) - 2 ^ 64

/-- Go float-to-int conversion: truncation toward zero. -/
def ratTrunc (q : Rat) : Int :=
  if 0 ≤ q then q.floor else q.ceil

/-- `Value.Integer`: integer family casts, float family truncates toward
zero, text is parsed as a float then truncated (failure → 0), any other
kind → diagnostic + 0. (Go's `int` is modelled as unbounded `Int`; the
`uint`→`int` wrap is kept explicitly.) -/
protected def Value.Integer (v : Value) : Int :=
  match v.getResolvedValue with
  | .intD n => n
  | .uintD n => uintToInt n
  | .floatD q => ratTrunc q
  | .strD s =>
      match strconvParseFloat s with
      | some f => ratTrunc f
      | none => 0
  | _ => 0

/-- `Value.Float`: integer family converts, float family passes through,
text is parsed (failure → 0.0), any other kind → diagnostic + 0.0.
(The int→float64 conversion is modelled exactly; Go rounds above 2^53,
which no claim reaches.) -/
protected def Value.Float (v : Value) : Rat :=
  match v.getResolvedValue with
  | .intD n => (n : Rat)
  | .uintD n => (n : Rat)
  | .floatD q => q
  | .strD s => (strconvParseFloat s).getD 0
  | _ => 0

/-- Models `fmt.Sprintf("%f", x)`: fixed-point, six fractional digits.
(The model rounds half away from the floor via `round`; the host rounds
ties to even and prints `-0.000000` for tiny negatives — differences a
claim never observes.) -/
def formatFloat6 (q : Rat) : String :=
  let n : Int := round (q * 1000000)
  let m : Nat := n.natAbs
  let fs := toString (m % 1000000)
  let pad := String.mk (List.replicate (6 - fs.length) '0')
  (if n < 0 then "-" else "") ++ toString (m / 1000000) ++ "." ++ pad ++ fs

/-- Models the host `time.Time.String()` output abstractly: its exact text
is opaque to this core and never observed by a claim. -/
def timeString (t : Int) : String :=
  "time " ++ toString t

/-- Whether the raw datum implements `fmt.Stringer`: in the model only
`time.Time` and `*time.Time` do (Go promotes the value-receiver
`String()` method to the pointer's method set). -/
def Datum.isStringer : Datum → Bool
  | .timeD _ => true
  | .ptrD (.timeD _) => true
  | _ => false

/-- The `fmt.Stringer` output for the data that implement it. -/
def Datum.stringerOut : Datum → String
  | .timeD t => timeString t
  | .ptrD (.timeD t) => timeString t
  | _ => ""

/-- A stand-in for the Go type's name, feeding only the default textual
representation below; no claim inspects its content. -/
def Datum.typeNameStr : Datum → String
  | .nilD => "invalid"
  | .boolD _ => "bool"
  | .intD _ => "int"
  | .uintD _ => "uint"
  | .floatD _ => "float64"
  | .strD _ => "string"
  | .timeD _ => "time.Time"
  | .seqD _ => "[]interface {}"
  | .mapD _ _ => "map"
  | .structD _ => "struct"
  | .ptrD _ => "*elem"

/-- `reflect.Value.String()`: the string itself for string kind, the
`<T Value>` placeholder otherwise. -/
def Datum.reflectString : Datum → String
  | .strD s => s
  | d => "<" ++ d.typeNameStr ++ " Value>"

/-- `Value.String`: nil → empty; a `fmt.Stringer` RAW value takes
precedence; then by resolved kind: text passes through, integers render
base-10, floats render `%f`, booleans render `True`/`False`; any other
kind → diagnostic + the default representation. -/
protected def Value.String (v : Value) : String :=
  if v.IsNil then ""
  else if v.val.isStringer then v.val.stringerOut
  else
    match v.getResolvedValue with
    | .strD s => s
    | .intD n => toString n
    | .uintD n => toString n
    | .floatD q => formatFloat6 q
    | .boolD b => if b then "True" else "False"
    | d => d.reflectString

/-- `Value.IsTrue`: Python-style truthiness by resolved kind (the string
length test uses Go's byte-level `Len`). -/
def Value.IsTrue (v : Value) : Bool :=
  match v.getResolvedValue with
  | .intD n => n != 0
  | .uintD n => n != 0
  | .floatD q => q != 0
  | .seqD xs => decide (0 < xs.length)
  | .mapD _ es => decide (0 < es.length)
  | .strD s => decide (0 < s.utf8ByteSize)
  | .boolD b => b
  | .timeD _ => true
  | .structD _ => true
  | _ => false

/-- `Value.Negate`: kind-dependent logical complement; the float zero case
returns 1.1, not 1.0 (the asymmetry the source carries). -/
def Value.Negate (v : Value) : Value :=
  match v.getResolvedValue with
  | .intD _ | .uintD _ =>
      if v.Integer != 0 then AsValue (.intD 0) else AsValue (.intD 1)
  | .floatD _ =>
      if v.Float != 0 then AsValue (.floatD 0) else AsValue (.floatD (11 / 10))
  | .seqD _ | .mapD _ _ | .strD _ =>
      AsValue (.boolD (v.getResolvedValue.rawLen == 0))
  | .boolD b => AsValue (.boolD !b)
  | .timeD _ | .structD _ => AsValue (.boolD false)
  | _ => AsValue (.boolD true)

/-- `Value.Len`: element count for containers, RUNE count for strings,
diagnostic + 0 otherwise. -/
def Value.Len (v : Value) : Nat :=
  match v.getResolvedValue with
  | .seqD xs => xs.length
  | .mapD _ es => es.length
  | .strD s => s.length
  | _ => 0

/-- `Value.Slice`: the `[i, j)` subsequence/substring. Out-of-range bounds
panic in Go (`none` in the model); a non-sliceable kind yields
`AsValue([]int{})` after a diagnostic. `i`, `j` are `Nat`: a negative
index is likewise fatal and outside the defined contract. -/
def Value.Slice (v : Value) (i j : Nat) : Option Value :=
  match v.getResolvedValue with
  | .seqD xs =>
      if i ≤ j && j ≤ xs.length then
        some (AsValue (.seqD ((xs.drop i).take (j - i))))
      else none
  | .strD s =>
      if i ≤ j && j ≤ s.length then
        some (AsValue (.strD (String.mk ((s.data.drop i).take (j - i)))))
      else none
  | _ => some (AsValue (.seqD []))

/-- `Value.Index`: i-th element of a sequence (nil Value past the end, no
diagnostic) or i-th code point of a string (empty string past the end);
any other kind → diagnostic + `AsValue([]int{})`. The second component
records whether the diagnostic fired. -/
def Value.Index (v : Value) (i : Nat) : Value × Bool :=
  match v.getResolvedValue with
  | .seqD xs =>
      if i ≥ xs.length then (AsValue .nilD, false)
      else (AsValue (xs.getD i .nilD), false)
  | .strD s =>
      if i < s.length then (AsValue (.strD (String.mk [s.data.getD i ' '])), false)
      else (AsValue (.strD ""), false)
  | _ => (AsValue (.seqD []), true)

/-- `Value.CanSlice`. -/
def Value.CanSlice (v : Value) : Bool :=
  match v.getResolvedValue.goKind with
  | .sliceK | .stringK => true
  | _ => false

/-- The tolerance constant `epsilon = 1e-9`. -/
def epsilon : Rat := 1 / 1000000000

/-- `Value.castToFloat64`: integer family through `Integer()`, otherwise
`Float()`. -/
def Value.castToFloat64 (v : Value) : Rat :=
  if v.IsInteger then (v.Integer : Rat) else v.Float

mutual

/-- Go `reflect.Type.Comparable()`: slices and maps are not comparable,
structs are comparable iff all their fields are, pointers always are. -/
def Datum.comparable : Datum → Bool
  | .nilD => false
  | .seqD _ => false
  | .mapD _ _ => false
  | .structD fields => Datum.fieldsComparable fields
  | _ => true

/-- All fields of a struct are comparable. -/
def Datum.fieldsComparable : List (String × Datum) → Bool
  | [] => true
  | (_, d) :: rest => Datum.comparable d && Datum.fieldsComparable rest

end

/-- `Value.EqualValueTo`: numeric pairs compare with tolerance `epsilon`;
time pairs compare by instant; an invalid side gives false; otherwise
direct interface equality (on the RAW values) guarded by comparability. -/
def Value.EqualValueTo (v other : Value) : Bool :=
  if v.IsNumber && other.IsNumber then
    decide ((v.castToFloat64 - other.castToFloat64) < epsilon ∧
            (other.castToFloat64 - v.castToFloat64) < epsilon)
  else if v.IsTime && other.IsTime then v.Time == other.Time
  else if !v.val.isValid || !other.val.isValid then false
  else v.val.comparable && other.val.comparable && Datum.beq v.val other.val

/-- `strings.Contains`: substring test. -/
def strContainsSub (hay needle : String) : Bool :=
  (List.range (hay.data.length + 1)).any
    (fun i => needle.data.isPrefixOf (hay.data.drop i))

/-- `reflect.Value.MapIndex`: `some` of the mapped value iff the key is
present under Go key equality. -/
def mapIndexD (es : List (Datum × Datum)) (k : Datum) : Option Datum :=
  match es with
  | [] => none
  | (k0, v0) :: rest => if Datum.beq k0 k then some v0 else mapIndexD rest k

/-- `Value.Contains`: struct field lookup by name (a `time.Time` is a
struct whose field names the host fixes), map key lookup guarded by exact
key-type match and the `int`/`string` lookup-type switch, substring test
for text, `EqualValueTo` scan for sequences, false otherwise. -/
def Value.Contains (v other : Value) : Bool :=
  match v.getResolvedValue with
  | .structD fields => fields.any (fun f => f.1 == other.String)
  | .timeD _ => ["wall", "ext", "loc"].contains other.String
  | .mapD kk es =>
      if !other.val.isValid then false
      else if other.val.goKind ≠ kk then false
      else
        match other.val with
        | .intD _ => (mapIndexD es other.getResolvedValue).isSome
        | .strD _ => (mapIndexD es other.getResolvedValue).isSome
        | _ => false
  | .strD s => strContainsSub s other.String
  | .seqD xs => xs.any (fun item => other.EqualValueTo (AsValue item))
  | _ => false

/-- Go `<` on strings: byte-lexicographic, which on UTF-8 encodings equals
lexicographic comparison of the code-point sequences. -/
def strLtb : List Char → List Char → Bool
  | [], [] => false
  | [], _ :: _ => true
  | _ :: _, [] => false
  | a :: as, b :: bs => if a < b then true else if b < a then false else strLtb as bs

/-- `sortedKeys.Less`: wraps two raw map keys as Values and compares:
both-integer numerically, both-float numerically, else by `String()`. -/
def sortedKeysLess (a b : Datum) : Bool :=
  let vi : Value := ⟨a, false⟩
  let vj : Value := ⟨b, false⟩
  if vi.IsInteger && vj.IsInteger then decide (vi.Integer < vj.Integer)
  else if vi.IsFloat && vj.IsFloat then decide (vi.Float < vj.Float)
  else strLtb vi.String.data vj.String.data

/-- `valuesList.Less`: same comparison on two already-wrapped Values. -/
def valuesListLess (vi vj : Value) : Bool :=
  if vi.IsInteger && vj.IsInteger then decide (vi.Integer < vj.Integer)
  else if vi.IsFloat && vj.IsFloat then decide (vi.Float < vj.Float)
  else strLtb vi.String.data vj.String.data

/-- Insertion by a strict-less predicate (earlier elements stay first on
ties). Models the `sort.Sort`/`sort.SliceStable` calls; Go's `sort.Sort`
is unstable, but no claim proven here observes the sorted arrangement. -/
def insertLess {α : Type} (less : α → α → Bool) (x : α) : List α → List α
  | [] => [x]
  | y :: ys => if less x y then x :: y :: ys else y :: insertLess less x ys

/-- Sort by a strict-less predicate. -/
def sortLess {α : Type} (less : α → α → Bool) (l : List α) : List α :=
  l.foldr (insertLess less) []

/-- One visit record: (index, count, key, value). -/
abbrev Visit := Nat × Nat × Value × Option Value

/-- The `for ... { if !fn(...) { return } }` loop shared by the iteration
branches: calls `fn` on elements in order, recording every call made
(including the one that returns false), and stops right after the first
false. -/
def visitLoop (fn : Nat → Nat → Value → Option Value → Bool) (count : Nat) :
    Nat → List (Value × Option Value) → List Visit
  | _, [] => []
  | idx, (k, val) :: rest =>
      if fn idx count k val then
        (idx, count, k, val) :: visitLoop fn count (idx + 1) rest
      else [(idx, count, k, val)]

/-- Observable outcome of one `Iterate`/`IterateOrder` call: the sequence
of `fn` calls made and the number of times `empty` ran. -/
structure IterResult where
  visits : List Visit
  emptyCalls : Nat

/-- The key snapshot a map iteration walks: the `MapKeys` snapshot (the
entry order models the order `MapKeys` yields), sorted by the shared
comparator when `sorted` is set, reversed via `sort.Reverse` when
`reverse` is also set. -/
def mapIterKeys (es : List (Datum × Datum)) (reverse sorted : Bool) : List Datum :=
  let keys0 := es.map (·.1)
  if sorted then
    (if reverse then sortLess (fun a b => sortedKeysLess b a) keys0
     else sortLess sortedKeysLess keys0)
  else keys0

/-- The item snapshot a sequence iteration walks: wrapped elements in
original order; sorted by the shared comparator when `sorted` (reversed
via `sort.Reverse`), or reversed in place when only `reverse` is set. -/
def seqIterItems (xs : List Datum) (reverse sorted : Bool) : List Value :=
  let items0 : List Value := xs.map (fun d => ⟨d, false⟩)
  if sorted then
    (if reverse then sortLess (fun a b => valuesListLess b a) items0
     else sortLess valuesListLess items0)
  else (if reverse then items0.reverse else items0)

/-- The code points a string iteration walks: stable-sorted by scalar
value when `sorted`, then reversed when `reverse`. -/
def strIterChars (s : String) (reverse sorted : Bool) : List Char :=
  let rs1 := if sorted then sortLess (fun a b : Char => decide (a < b)) s.data else s.data
  if reverse then rs1.reverse else rs1

/-- `Value.IterateOrder`: per resolved kind — maps walk their key snapshot
looking each value up via `MapIndex`, sequences walk their item snapshot,
strings walk their code points as one-character strings; each branch runs
the shared visit loop and calls `empty` exactly once when it has nothing
to visit; a non-iterable kind emits a diagnostic and calls `empty`. -/
def Value.IterateOrder (v : Value)
    (fn : Nat → Nat → Value → Option Value → Bool)
    (reverse sorted : Bool) : IterResult :=
  match v.getResolvedValue with
  | .mapD _ es =>
      let keys := mapIterKeys es reverse sorted
      let stream := keys.map (fun k =>
        ((⟨k, false⟩ : Value), some (⟨(mapIndexD es k).getD .nilD, false⟩ : Value)))
      { visits := visitLoop fn keys.length 0 stream,
        emptyCalls := if keys.length = 0 then 1 else 0 }
  | .seqD xs =>
      let items := seqIterItems xs reverse sorted
      if 0 < items.length then
        { visits := visitLoop fn xs.length 0 (items.map (fun it => (it, none))),
          emptyCalls := 0 }
      else { visits := [], emptyCalls := 1 }
  | .strD s =>
      if 0 < s.data.length then
        { visits := visitLoop fn s.data.length 0
            ((strIterChars s reverse sorted).map (fun c =>
              ((⟨.strD (String.mk [c]), false⟩ : Value), none))),
          emptyCalls := 0 }
      else { visits := [], emptyCalls := 1 }
  | _ => { visits := [], emptyCalls := 1 }

/-- `Value.Iterate`: `IterateOrder` with `reverse = sorted = false`. -/
def Value.Iterate (v : Value)
    (fn : Nat → Nat → Value → Option Value → Bool) : IterResult :=
  v.IterateOrder fn false false

/-- A string has zero UTF-8 bytes exactly when it has no characters. -/
theorem utf8ByteSize_eq_zero_iff (s : String) : s.utf8ByteSize = 0 ↔ s.data = [] := by
  obtain ⟨cs⟩ := s
  cases cs with
  | nil => exact ⟨fun _ => rfl, fun _ => by decide⟩
  | cons c cs =>
      simp only [String.utf8ByteSize_mk, String.utf8Len_cons]
      have := c.utf8Size_pos
      exact ⟨fun h => by omega, fun h => by simp at h⟩

/-- C1: `Negate` returns a new Value whose encoding is kind-dependent: for
an integer/unsigned value, nonzero maps to integer 0 and zero to integer
1; for a float value, nonzero maps to float 0.0 and zero to float 1.1
(literally 1.1); for a container kind (sequence, mapping, text) it
returns boolean true iff the length is zero; for a boolean the logical
complement; for a struct/record kind boolean false; for any unknown kind
boolean true. -/
theorem negate_kind_cases (v : Value) :
    (∀ n : Int, v.getResolvedValue = .intD n →
      v.Negate = AsValue (.intD (if n = 0 then 1 else 0))) ∧
    (∀ n : Nat, n < 2 ^ 64 → v.getResolvedValue = .uintD n →
      v.Negate = AsValue (.intD (if n = 0 then 1 else 0))) ∧
    (∀ q : Rat, v.getResolvedValue = .floatD q →
      v.Negate = AsValue (.floatD (if q = 0 then 11 / 10 else 0))) ∧
    (∀ xs, v.getResolvedValue = .seqD xs →
      v.Negate = AsValue (.boolD (decide (xs.length = 0)))) ∧
    (∀ kk es, v.getResolvedValue = .mapD kk es →
      v.Negate = AsValue (.boolD (decide (es.length = 0)))) ∧
    (∀ s, v.getResolvedValue = .strD s →
      v.Negate = AsValue (.boolD (decide (s.data = [])))) ∧
    (∀ b, v.getResolvedValue = .boolD b → v.Negate = AsValue (.boolD (!b))) ∧
    (∀ t, v.getResolvedValue = .timeD t → v.Negate = AsValue (.boolD false)) ∧
    (∀ fs, v.getResolvedValue = .structD fs → v.Negate = AsValue (.boolD false)) ∧
    (∀ d, v.getResolvedValue = .nilD ∨ v.getResolvedValue = .ptrD d →
      v.Negate = AsValue (.boolD true)) := by
  refine ⟨?_, ?_, ?_, ?_, ?_, ?_, ?_, ?_, ?_, ?_⟩
  · intro n h
    by_cases hn : n = 0 <;> simp [Value.Negate, Value.Integer, h, hn]
  · intro n hlt h
    have hI : v.Integer = uintToInt n := by simp [Value.Integer, h]
    by_cases hn : n = 0
    · subst hn; simp [Value.Negate, h, hI, uintToInt]
    · have hz : uintToInt n ≠ 0 := by unfold uintToInt; split <;> omega
      simp [Value.Negate, h, hI, hz, hn]
  · intro q h
    by_cases hq : q = 0 <;> simp [Value.Negate, Value.Float, h, hq]
  · intro xs h
    cases xs <;> simp [Value.Negate, h, Datum.rawLen]
  · intro kk es h
    cases es <;> simp [Value.Negate, h, Datum.rawLen]
  · intro s h
    by_cases hs : s.data = []
    · have h0 : s.utf8ByteSize = 0 := (utf8ByteSize_eq_zero_iff s).mpr hs
      simp [Value.Negate, h, Datum.rawLen, h0, hs]
    · have h0 : s.utf8ByteSize ≠ 0 := fun hh => hs ((utf8ByteSize_eq_zero_iff s).mp hh)
      have hb : (s.utf8ByteSize == 0) = false := by
        rw [Bool.eq_false_iff]
        intro hb
        exact h0 (by simpa using hb)
      simp [Value.Negate, h, Datum.rawLen, hb, hs]
  · intro b h; simp [Value.Negate, h]
  · intro t h; simp [Value.Negate, h]
  · intro fs h; simp [Value.Negate, h]
  · intro d h; rcases h with h | h <;> simp [Value.Negate, h]

/-- C1 witness: `Negate` at integer 5 and 0, float 2.5 and 0.0. -/
theorem negate_kind_cases_witness :
    (AsValue (.intD 5)).Negate = AsValue (.intD 0) ∧
    (AsValue (.intD 0)).Negate = AsValue (.intD 1) ∧
    (AsValue (.floatD (5 / 2))).Negate = AsValue (.floatD 0) ∧
    (AsValue (.floatD 0)).Negate = AsValue (.floatD (11 / 10)) := by
  refine ⟨?_, ?_, ?_, ?_⟩
  · simpa using (negate_kind_cases (AsValue (.intD 5))).1 5 rfl
  · simpa using (negate_kind_cases (AsValue (.intD 0))).1 0 rfl
  · have := (negate_kind_cases (AsValue (.floatD (5 / 2)))).2.2.1 (5 / 2) rfl
    simpa using this
  · simpa using (negate_kind_cases (AsValue (.floatD 0))).2.2.1 0 rfl

/-- C4: `IsTrue` implements Python-style truthiness on the resolved value:
numeric kinds true iff nonzero; container kinds true iff length > 0;
boolean returns itself; struct/record kinds unconditionally true; any
other or unknown kind (including nil) false. -/
theorem isTrue_kind_cases (v : Value) :
    (∀ n : Int, v.getResolvedValue = .intD n → v.IsTrue = decide (n ≠ 0)) ∧
    (∀ n : Nat, v.getResolvedValue = .uintD n → v.IsTrue = decide (n ≠ 0)) ∧
    (∀ q : Rat, v.getResolvedValue = .floatD q → v.IsTrue = decide (q ≠ 0)) ∧
    (∀ xs, v.getResolvedValue = .seqD xs → v.IsTrue = decide (0 < xs.length)) ∧
    (∀ kk es, v.getResolvedValue = .mapD kk es → v.IsTrue = decide (0 < es.length)) ∧
    (∀ s, v.getResolvedValue = .strD s → v.IsTrue = decide (s.data ≠ [])) ∧
    (∀ b, v.getResolvedValue = .boolD b → v.IsTrue = b) ∧
    (∀ t, v.getResolvedValue = .timeD t → v.IsTrue = true) ∧
    (∀ fs, v.getResolvedValue = .structD fs → v.IsTrue = true) ∧
    (∀ d, v.getResolvedValue = .nilD ∨ v.getResolvedValue = .ptrD d →
      v.IsTrue = false) := by
  refine ⟨?_, ?_, ?_, ?_, ?_, ?_, ?_, ?_, ?_, ?_⟩
  · intro n h; by_cases hn : n = 0 <;> simp [Value.IsTrue, h, hn, bne_iff_ne]
  · intro n h; by_cases hn : n = 0 <;> simp [Value.IsTrue, h, hn, bne_iff_ne]
  · intro q h; by_cases hq : q = 0 <;> simp [Value.IsTrue, h, hq, bne_iff_ne]
  · intro xs h; simp [Value.IsTrue, h]
  · intro kk es h; simp [Value.IsTrue, h]
  · intro s h
    by_cases hs : s.data = []
    · have h0 : s.utf8ByteSize = 0 := (utf8ByteSize_eq_zero_iff s).mpr hs
      simp [Value.IsTrue, h, h0, hs]
    · have h0 : s.utf8ByteSize ≠ 0 := fun hh => hs ((utf8ByteSize_eq_zero_iff s).mp hh)
      simp [Value.IsTrue, h, hs, Nat.pos_of_ne_zero h0]
  · intro b h; simp [Value.IsTrue, h]
  · intro t h; simp [Value.IsTrue, h]
  · intro fs h; simp [Value.IsTrue, h]
  · intro d h; rcases h with h | h <;> simp [Value.IsTrue, h]

/-- C4 witness: truthiness at 0, 5, "", the empty sequence and a struct. -/
theorem isTrue_kind_cases_witness :
    (AsValue (.intD 0)).IsTrue = false ∧
    (AsValue (.intD 5)).IsTrue = true ∧
    (AsValue (.strD "")).IsTrue = false ∧
    (AsValue (.seqD [])).IsTrue = false ∧
    (AsValue (.structD [])).IsTrue = true := by
  refine ⟨?_, ?_, ?_, ?_, ?_⟩
  · simpa using (isTrue_kind_cases (AsValue (.intD 0))).1 0 rfl
  · simpa using (isTrue_kind_cases (AsValue (.intD 5))).1 5 rfl
  · simpa using (isTrue_kind_cases (AsValue (.strD ""))).2.2.2.2.2.1 "" rfl
  · simpa using (isTrue_kind_cases (AsValue (.seqD []))).2.2.2.1 [] rfl
  · simpa using (isTrue_kind_cases (AsValue (.structD []))).2.2.2.2.2.2.2.2.1 [] rfl

/-- C2: for numeric `a`, `b` (any mix of integer and float family),
`EqualValueTo` holds iff the absolute difference of their float64
castings is strictly below 1e-9. -/
theorem equalValueTo_numeric (a b : Value)
    (ha : a.IsNumber = true) (hb : b.IsNumber = true) :
    (a.EqualValueTo b = true ↔
      |a.castToFloat64 - b.castToFloat64| < epsilon) := by
  simp [Value.EqualValueTo, ha, hb, abs_sub_lt_iff]

/-- C2 witness: integer 1 equals float 1.0. -/
theorem equalValueTo_numeric_witness :
    (AsValue (.intD 1)).EqualValueTo (AsValue (.floatD 1)) = true := by
  have h1 : (AsValue (.intD 1)).castToFloat64 = 1 := by
    simp [Value.castToFloat64, Value.IsInteger, Value.getResolvedValue, AsValue,
      Datum.goKind, Value.Integer]
  have h2 : (AsValue (.floatD 1)).castToFloat64 = 1 := by
    simp [Value.castToFloat64, Value.IsInteger, Value.getResolvedValue, AsValue,
      Datum.goKind, Value.Float]
  refine (equalValueTo_numeric (AsValue (.intD 1)) (AsValue (.floatD 1))
    (by decide) (by decide)).mpr ?_
  rw [h1, h2]
  norm_num [epsilon]

/-- Operations that dispatch on the resolved value agree on any two Values
with the same resolved value. -/
theorem resolved_congr (v w : Value) (h : v.getResolvedValue = w.getResolvedValue) :
    v.IsString = w.IsString ∧ v.IsBool = w.IsBool ∧ v.IsFloat = w.IsFloat ∧
    v.IsInteger = w.IsInteger ∧ v.IsNumber = w.IsNumber ∧ v.IsNil = w.IsNil ∧
    v.Bool = w.Bool ∧ v.Integer = w.Integer ∧ v.Float = w.Float ∧
    v.IsTrue = w.IsTrue ∧ v.Len = w.Len ∧ v.Negate = w.Negate := by
  have hI : v.Integer = w.Integer := by unfold Value.Integer; rw [h]
  have hF : v.Float = w.Float := by unfold Value.Float; rw [h]
  refine ⟨?_, ?_, ?_, ?_, ?_, ?_, ?_, hI, hF, ?_, ?_, ?_⟩
  · unfold Value.IsString; rw [h]
  · unfold Value.IsBool; rw [h]
  · unfold Value.IsFloat; rw [h]
  · unfold Value.IsInteger; rw [h]
  · unfold Value.IsNumber Value.IsInteger Value.IsFloat; rw [h]
  · unfold Value.IsNil; rw [h]
  · unfold Value.Bool; rw [h]
  · unfold Value.IsTrue; rw [h]
  · unfold Value.Len; rw [h]
  · unfold Value.Negate; rw [h, hI, hF]

/-- C3 counterexample: wrapping a single-level reference to a timestamp,
the resolved value IS the timestamp and `IsTime` accepts the timestamp
itself, yet `IsTime` on the wrapper returns false — so `IsTime` (and
`Time`) act on the raw value, not on the resolved value as the claim
states. -/
theorem isTime_not_resolved_counterexample :
    (AsValue (.ptrD (.timeD 7))).getResolvedValue = .timeD 7 ∧
    (AsValue (.timeD 7)).IsTime = true ∧
    (AsValue (.ptrD (.timeD 7))).IsTime = false ∧
    (AsValue (.timeD 7)).Time = 7 ∧
    (AsValue (.ptrD (.timeD 7))).Time = 0 :=
  ⟨rfl, rfl, rfl, rfl, rfl⟩

/-- C3 amended: the kind-dispatching predicates and coercions act on the
once-resolved value, and only one level of indirection is resolved (a
reference to a reference is not further dereferenced); but `IsTime` and
`Time` inspect the raw, unresolved value, so a single-level reference to
a timestamp is not recognized as one. -/
theorem resolution_one_level (d : Datum) (sf : Bool) (hd : d.goKind ≠ .ptrK) :
    ((⟨.ptrD d, sf⟩ : Value).getResolvedValue = d) ∧
    ((⟨.ptrD (.ptrD d), sf⟩ : Value).getResolvedValue = .ptrD d) ∧
    ((⟨.ptrD d, sf⟩ : Value).IsString = (⟨d, sf⟩ : Value).IsString) ∧
    ((⟨.ptrD d, sf⟩ : Value).IsBool = (⟨d, sf⟩ : Value).IsBool) ∧
    ((⟨.ptrD d, sf⟩ : Value).IsFloat = (⟨d, sf⟩ : Value).IsFloat) ∧
    ((⟨.ptrD d, sf⟩ : Value).IsInteger = (⟨d, sf⟩ : Value).IsInteger) ∧
    ((⟨.ptrD d, sf⟩ : Value).IsNumber = (⟨d, sf⟩ : Value).IsNumber) ∧
    ((⟨.ptrD d, sf⟩ : Value).IsNil = (⟨d, sf⟩ : Value).IsNil) ∧
    ((⟨.ptrD d, sf⟩ : Value).Bool = (⟨d, sf⟩ : Value).Bool) ∧
    ((⟨.ptrD d, sf⟩ : Value).Integer = (⟨d, sf⟩ : Value).Integer) ∧
    ((⟨.ptrD d, sf⟩ : Value).Float = (⟨d, sf⟩ : Value).Float) ∧
    ((⟨.ptrD d, sf⟩ : Value).IsTrue = (⟨d, sf⟩ : Value).IsTrue) ∧
    ((⟨.ptrD d, sf⟩ : Value).Len = (⟨d, sf⟩ : Value).Len) ∧
    ((⟨.ptrD d, sf⟩ : Value).Negate = (⟨d, sf⟩ : Value).Negate) ∧
    ((⟨.ptrD d, sf⟩ : Value).String = (⟨d, sf⟩ : Value).String) ∧
    (∀ t : Int, d = .timeD t →
      (⟨.ptrD d, sf⟩ : Value).IsTime = false ∧ (⟨d, sf⟩ : Value).IsTime = true ∧
      (⟨.ptrD d, sf⟩ : Value).Time = 0 ∧ (⟨d, sf⟩ : Value).Time = t) := by
  have hres : (⟨d, sf⟩ : Value).getResolvedValue = d := by
    cases d <;> first | rfl | (exfalso; exact hd rfl)
  have heq : (⟨.ptrD d, sf⟩ : Value).getResolvedValue = (⟨d, sf⟩ : Value).getResolvedValue := by
    rw [hres]; rfl
  obtain ⟨h1, h2, h3, h4, h5, h6, h7, h8, h9, h10, h11, h12⟩ := resolved_congr _ _ heq
  refine ⟨rfl, rfl, h1, h2, h3, h4, h5, h6, h7, h8, h9, h10, h11, h12, ?_, ?_⟩
  · unfold Value.String
    rw [show (⟨.ptrD d, sf⟩ : Value).IsNil = (⟨d, sf⟩ : Value).IsNil from h6]
    cases d <;> first | rfl | (exfalso; exact hd rfl)
  · intro t ht
    subst ht
    exact ⟨rfl, rfl, rfl, rfl⟩

/-- C3 amended witness: at a reference to the integer 3 and a reference to
the timestamp 7. -/
theorem resolution_one_level_witness :
    (AsValue (.ptrD (.intD 3))).getResolvedValue = .intD 3 ∧
    (AsValue (.ptrD (.intD 3))).IsInteger = (AsValue (.intD 3)).IsInteger ∧
    (AsValue (.ptrD (.timeD 7))).IsTime = false := by
  refine ⟨(resolution_one_level (.intD 3) false (by decide)).1,
    (resolution_one_level (.intD 3) false (by decide)).2.2.2.2.2.1, ?_⟩
  exact ((resolution_one_level (.timeD 7) false (by decide)).2.2.2.2.2.2.2.2.2.2.2.2.2.2.2
    7 rfl).1

/-- C7 counterexample: both comparators order integer 2 before integer 10
(numerically) and integer 10 before float 15.0 (via the string fallback,
"10" < "15.000000"), yet also order float 15.0 before integer 2
("15.000000" < "2") — a 3-cycle, so the relation is not transitive across
mixed integer/float operands and is not a total order. -/
theorem comparator_cycle_counterexample :
    valuesListLess (AsValue (.intD 2)) (AsValue (.intD 10)) = true ∧
    valuesListLess (AsValue (.intD 10)) (AsValue (.floatD 15)) = true ∧
    valuesListLess (AsValue (.floatD 15)) (AsValue (.intD 2)) = true ∧
    valuesListLess (AsValue (.intD 2)) (AsValue (.floatD 15)) = false ∧
    sortedKeysLess (.intD 2) (.intD 10) = true ∧
    sortedKeysLess (.intD 10) (.floatD 15) = true ∧
    sortedKeysLess (.floatD 15) (.intD 2) = true := by
  have hround : round ((15 : Rat) * 1000000) = 15000000 := by norm_num [round_eq]
  have hfmt : formatFloat6 15 = "15.000000" := by
    simp only [formatFloat6, hround]
    rfl
  have hs : (AsValue (.floatD 15)).String = "15.000000" := hfmt
  have e1 : valuesListLess (AsValue (.intD 10)) (AsValue (.floatD 15)) =
      strLtb (AsValue (.intD 10)).String.data (AsValue (.floatD 15)).String.data := rfl
  have e2 : valuesListLess (AsValue (.floatD 15)) (AsValue (.intD 2)) =
      strLtb (AsValue (.floatD 15)).String.data (AsValue (.intD 2)).String.data := rfl
  have e3 : valuesListLess (AsValue (.intD 2)) (AsValue (.floatD 15)) =
      strLtb (AsValue (.intD 2)).String.data (AsValue (.floatD 15)).String.data := rfl
  have e4 : sortedKeysLess (.intD 10) (.floatD 15) =
      strLtb (AsValue (.intD 10)).String.data (AsValue (.floatD 15)).String.data := rfl
  have e5 : sortedKeysLess (.floatD 15) (.intD 2) =
      strLtb (AsValue (.floatD 15)).String.data (AsValue (.intD 2)).String.data := rfl
  refine ⟨rfl, ?_, ?_, ?_, rfl, ?_, ?_⟩
  · rw [e1, hs]; rfl
  · rw [e2, hs]; rfl
  · rw [e3, hs]; rfl
  · rw [e4, hs]; rfl
  · rw [e5, hs]; rfl

/-- C7 amended: map-key sorting and sequence sorting use the same
comparison relation — both-integer compares numerically, both-float
compares numerically, otherwise lexicographically on `String()` — but
the relation is not a total order (see the counterexample). -/
theorem comparator_shared_relation :
    (∀ a b : Datum, sortedKeysLess a b = valuesListLess ⟨a, false⟩ ⟨b, false⟩) ∧
    (∀ vi vj : Value, vi.IsInteger = true → vj.IsInteger = true →
      valuesListLess vi vj = decide (vi.Integer < vj.Integer)) ∧
    (∀ vi vj : Value, vi.IsFloat = true → vj.IsFloat = true →
      valuesListLess vi vj = decide (vi.Float < vj.Float)) ∧
    (∀ vi vj : Value, ¬(vi.IsInteger = true ∧ vj.IsInteger = true) →
      ¬(vi.IsFloat = true ∧ vj.IsFloat = true) →
      valuesListLess vi vj = strLtb vi.String.data vj.String.data) := by
  refine ⟨fun a b => rfl, ?_, ?_, ?_⟩
  · intro vi vj h1 h2
    simp [valuesListLess, h1, h2]
  · intro vi vj h1 h2
    have k1 : vi.getResolvedValue.goKind = .floatK := by
      simpa [Value.IsFloat] using h1
    have k2 : vj.getResolvedValue.goKind = .floatK := by
      simpa [Value.IsFloat] using h2
    have i1 : vi.IsInteger = false := by simp [Value.IsInteger, k1]
    simp [valuesListLess, i1, h1, h2]
  · intro vi vj h1 h2
    have b1 : (vi.IsInteger && vj.IsInteger) = false := by
      rw [Bool.eq_false_iff]
      intro hb
      exact h1 (by simpa using hb)
    have b2 : (vi.IsFloat && vj.IsFloat) = false := by
      rw [Bool.eq_false_iff]
      intro hb
      exact h2 (by simpa using hb)
    simp [valuesListLess, b1, b2]

/-- C7 amended witness: the shared relation evaluated at concrete pairs in
each regime. -/
theorem comparator_shared_relation_witness :
    valuesListLess (AsValue (.intD 2)) (AsValue (.intD 10)) =
      decide ((AsValue (.intD 2)).Integer < (AsValue (.intD 10)).Integer) ∧
    valuesListLess (AsValue (.floatD 1)) (AsValue (.floatD 2)) =
      decide ((AsValue (.floatD 1)).Float < (AsValue (.floatD 2)).Float) ∧
    valuesListLess (AsValue (.intD 10)) (AsValue (.floatD 15)) =
      strLtb (AsValue (.intD 10)).String.data (AsValue (.floatD 15)).String.data := by
  refine ⟨comparator_shared_relation.2.1 _ _ (by decide) (by decide),
    comparator_shared_relation.2.2.1 _ _ (by decide) (by decide),
    comparator_shared_relation.2.2.2 _ _ ?_ ?_⟩
  · intro hb; exact absurd hb.2 (by decide)
  · intro hb; exact absurd hb.1 (by decide)

/-- C9: `Index(i)` under the non-negative contract: on a sequence, `i`
past the end yields the nil Value with no diagnostic, otherwise the i-th
element; on text, `i` below the code-point count yields the single code
point as a one-character string, otherwise the empty string. -/
theorem index_contract (v : Value) (i : Nat) :
    (∀ xs, v.getResolvedValue = .seqD xs →
      (xs.length ≤ i → v.Index i = (AsValue .nilD, false)) ∧
      (∀ h : i < xs.length, v.Index i = (AsValue (xs.get ⟨i, h⟩), false))) ∧
    (∀ s, v.getResolvedValue = .strD s →
      (∀ h : i < s.data.length, v.Index i =
        (AsValue (.strD (String.mk [s.data.get ⟨i, h⟩])), false)) ∧
      (s.data.length ≤ i → v.Index i = (AsValue (.strD ""), false))) := by
  constructor
  · intro xs hr
    constructor
    · intro hle
      simp [Value.Index, hr, hle]
    · intro h
      have hge : ¬ i ≥ xs.length := by omega
      simp only [Value.Index, hr]
      rw [if_neg hge]
      simp [List.getElem?_eq_getElem h, List.get_eq_getElem]
  · intro s hr
    obtain ⟨cs⟩ := s
    constructor
    · intro h
      have h2 : i < cs.length := h
      have hlt : i < (String.mk cs).length := h2
      simp only [Value.Index, hr]
      rw [if_pos hlt]
      have hgd : cs.getD i ' ' = cs.get ⟨i, h2⟩ := by
        rw [List.getD_eq_getElem cs ' ' h2, List.get_eq_getElem]
      show (AsValue (.strD (String.mk [cs.getD i ' '])), false) = _
      rw [hgd]
    · intro hle
      have hle2 : cs.length ≤ i := hle
      have hlt : ¬ i < (String.mk cs).length := by
        intro hc
        exact absurd (show i < cs.length from hc) (by omega)
      simp [Value.Index, hr, hlt]
      exact fun hc => absurd hc (by omega)

/-- C9 witness: a 2-element sequence and the string "ab" at indices 1 and
5. -/
theorem index_contract_witness :
    (AsValue (.seqD [.intD 7, .intD 8])).Index 1 = (AsValue (.intD 8), false) ∧
    (AsValue (.seqD [.intD 7, .intD 8])).Index 5 = (AsValue .nilD, false) ∧
    (AsValue (.strD "ab")).Index 1 = (AsValue (.strD "b"), false) ∧
    (AsValue (.strD "ab")).Index 5 = (AsValue (.strD ""), false) := by
  refine ⟨?_, ?_, ?_, ?_⟩
  · exact ((index_contract (AsValue (.seqD [.intD 7, .intD 8])) 1).1 _ rfl).2 (by decide)
  · exact ((index_contract (AsValue (.seqD [.intD 7, .intD 8])) 5).1 _ rfl).1 (by decide)
  · exact ((index_contract (AsValue (.strD "ab")) 1).2 _ rfl).1 (by decide)
  · exact ((index_contract (AsValue (.strD "ab")) 5).2 _ rfl).2 (by decide)

/-- A map lookup succeeds exactly when some entry's key equals the probe
under Go key equality. -/
theorem mapIndexD_isSome (es : List (Datum × Datum)) (k : Datum) :
    (mapIndexD es k).isSome = es.any (fun e => Datum.beq e.1 k) := by
  induction es with
  | nil => rfl
  | cons e rest ih =>
      obtain ⟨k0, v0⟩ := e
      rcases hk : Datum.beq k0 k <;> simp [mapIndexD, hk, ih]

/-- C8: `Contains` on a mapping: false when `other` is nil or its kind
does not exactly match the map's key kind; for an integer-kind or
text-kind key, true iff the key is present; any other (even matching) key
kind yields false without faulting. -/
theorem contains_map_contract (v other : Value) (kk : Kind)
    (es : List (Datum × Datum)) (h : v.getResolvedValue = .mapD kk es) :
    (other.val = .nilD → v.Contains other = false) ∧
    (other.val.goKind ≠ kk → v.Contains other = false) ∧
    (∀ n : Int, other.val = .intD n → kk = .intK →
      v.Contains other = es.any (fun e => Datum.beq e.1 (.intD n))) ∧
    (∀ s : String, other.val = .strD s → kk = .stringK →
      v.Contains other = es.any (fun e => Datum.beq e.1 (.strD s))) ∧
    (other.val.goKind = kk → kk ≠ .intK → kk ≠ .stringK →
      v.Contains other = false) := by
  refine ⟨?_, ?_, ?_, ?_, ?_⟩
  · intro ho
    simp [Value.Contains, h, ho, Datum.isValid]
  · intro hne
    by_cases hv : other.val.isValid = true
    · simp [Value.Contains, h, hv, hne]
    · simp [Value.Contains, h, hv]
  · intro n ho hkk
    subst hkk
    have hres : other.getResolvedValue = .intD n := by
      unfold Value.getResolvedValue; rw [ho]
    simp [Value.Contains, h, ho, Datum.isValid, Datum.goKind, hres,
      mapIndexD_isSome]
  · intro s ho hkk
    subst hkk
    have hres : other.getResolvedValue = .strD s := by
      unfold Value.getResolvedValue; rw [ho]
    simp [Value.Contains, h, ho, Datum.isValid, Datum.goKind, hres,
      mapIndexD_isSome]
  · intro hkk h1 h2
    rcases ho : other.val <;>
      simp_all [Value.Contains, h, Datum.isValid, Datum.goKind]

/-- C8 witness: the map {1 ↦ "x"} with key kind `int`, probed with the
present key 1, the absent key 2, a string key (kind mismatch), and a
bool-keyed map probed with a matching bool key. -/
theorem contains_map_contract_witness :
    (AsValue (.mapD .intK [(.intD 1, .strD "x")])).Contains (AsValue (.intD 1)) = true ∧
    (AsValue (.mapD .intK [(.intD 1, .strD "x")])).Contains (AsValue (.intD 2)) = false ∧
    (AsValue (.mapD .intK [(.intD 1, .strD "x")])).Contains (AsValue (.strD "1")) = false ∧
    (AsValue (.mapD .boolK [(.boolD true, .strD "x")])).Contains (AsValue (.boolD true)) = false := by
  refine ⟨?_, ?_, ?_, ?_⟩
  · have := (contains_map_contract (AsValue (.mapD .intK [(.intD 1, .strD "x")]))
      (AsValue (.intD 1)) .intK [(.intD 1, .strD "x")] rfl).2.2.1 1 rfl rfl
    simpa [Datum.beq] using this
  · have := (contains_map_contract (AsValue (.mapD .intK [(.intD 1, .strD "x")]))
      (AsValue (.intD 2)) .intK [(.intD 1, .strD "x")] rfl).2.2.1 2 rfl rfl
    simpa [Datum.beq] using this
  · exact (contains_map_contract (AsValue (.mapD .intK [(.intD 1, .strD "x")]))
      (AsValue (.strD "1")) .intK [(.intD 1, .strD "x")] rfl).2.1 (by decide)
  · exact (contains_map_contract (AsValue (.mapD .boolK [(.boolD true, .strD "x")]))
      (AsValue (.boolD true)) .boolK [(.boolD true, .strD "x")] rfl).2.2.2.2
      rfl (by decide) (by decide)

/-- Every visit record's key/value pair is drawn from the input stream. -/
theorem visitLoop_mem (fn : Nat → Nat → Value → Option Value → Bool) (count : Nat) :
    ∀ (idx : Nat) (L : List (Value × Option Value)) (rec : Visit),
      rec ∈ visitLoop fn count idx L → (rec.2.2.1, rec.2.2.2) ∈ L := by
  intro idx L
  induction L generalizing idx with
  | nil => intro rec h; simp [visitLoop] at h
  | cons p rest ih =>
      intro rec h
      obtain ⟨k, val⟩ := p
      by_cases hf : fn idx count k val = true
      · simp only [visitLoop, hf, if_true] at h
        rcases List.mem_cons.mp h with h1 | h1
        · subst h1; exact List.mem_cons_self _ _
        · exact List.mem_cons_of_mem _ (ih (idx + 1) rec h1)
      · simp only [visitLoop, hf, if_false] at h
        rcases List.mem_cons.mp h with h1 | h1
        · subst h1; exact List.mem_cons_self _ _
        · simp at h1

/-- Inserting preserves the element pool. -/
theorem insertLess_mem {α : Type} (less : α → α → Bool) (x : α) :
    ∀ (l : List α) (y : α), y ∈ insertLess less x l → y = x ∨ y ∈ l := by
  intro l
  induction l with
  | nil => intro y h; simp [insertLess] at h; exact Or.inl h
  | cons a l ih =>
      intro y h
      by_cases hc : less x a = true
      · simp only [insertLess, hc, if_true] at h
        rcases List.mem_cons.mp h with h1 | h1
        · exact Or.inl h1
        · exact Or.inr h1
      · simp only [insertLess, hc, if_false] at h
        rcases List.mem_cons.mp h with h1 | h1
        · exact Or.inr (h1 ▸ List.mem_cons_self a l)
        · rcases ih y h1 with h2 | h2
          · exact Or.inl h2
          · exact Or.inr (List.mem_cons_of_mem a h2)

/-- Sorting preserves the element pool. -/
theorem sortLess_mem {α : Type} (less : α → α → Bool) :
    ∀ (l : List α) (y : α), y ∈ sortLess less l → y ∈ l := by
  intro l
  induction l with
  | nil => intro y h; simp [sortLess] at h
  | cons a l ih =>
      intro y h
      rcases insertLess_mem less a (sortLess less l) y h with h1 | h1
      · exact h1 ▸ List.mem_cons_self a l
      · exact List.mem_cons_of_mem a (ih y h1)


/-- Insertion adds exactly one element. -/
theorem insertLess_length {α : Type} (less : α → α → Bool) (x : α) :
    ∀ l : List α, (insertLess less x l).length = l.length + 1 := by
  intro l
  induction l with
  | nil => rfl
  | cons a l ih => by_cases hc : less x a = true <;> simp [insertLess, hc, ih]

/-- Sorting a cons inserts the head into the sorted tail. -/
theorem sortLess_cons {α : Type} (less : α → α → Bool) (a : α) (l : List α) :
    sortLess less (a :: l) = insertLess less a (sortLess less l) := rfl

/-- Sorting preserves the length. -/
theorem sortLess_length {α : Type} (less : α → α → Bool) :
    ∀ l : List α, (sortLess less l).length = l.length := by
  intro l
  induction l with
  | nil => rfl
  | cons a l ih => rw [sortLess_cons, insertLess_length, ih]; rfl

/-- The walked map keys are drawn from the entry keys. -/
theorem mapIterKeys_mem (es : List (Datum × Datum)) (rev srt : Bool) :
    ∀ k ∈ mapIterKeys es rev srt, k ∈ es.map (·.1) := by
  intro k hk
  simp only [mapIterKeys] at hk
  by_cases hs : srt = true
  · rw [if_pos hs] at hk
    by_cases hrv : rev = true
    · rw [if_pos hrv] at hk
      exact sortLess_mem _ _ _ hk
    · rw [if_neg hrv] at hk
      exact sortLess_mem _ _ _ hk
  · rw [if_neg hs] at hk
    exact hk

/-- One walked map key per entry. -/
theorem mapIterKeys_length (es : List (Datum × Datum)) (rev srt : Bool) :
    (mapIterKeys es rev srt).length = es.length := by
  simp only [mapIterKeys]
  by_cases hs : srt = true
  · rw [if_pos hs]
    by_cases hrv : rev = true
    · rw [if_pos hrv, sortLess_length, List.length_map]
    · rw [if_neg hrv, sortLess_length, List.length_map]
  · rw [if_neg hs, List.length_map]

/-- Every walked sequence item wraps some element of the sequence with
`safe = false`. -/
theorem seqIterItems_mem (xs : List Datum) (rev srt : Bool) :
    ∀ it ∈ seqIterItems xs rev srt, ∃ d, d ∈ xs ∧ it = ⟨d, false⟩ := by
  intro it hit
  simp only [seqIterItems] at hit
  have pool : it ∈ xs.map (fun d => (⟨d, false⟩ : Value)) → ∃ d, d ∈ xs ∧ it = ⟨d, false⟩ := by
    intro hm
    rcases List.mem_map.mp hm with ⟨d, hd, hd2⟩
    exact ⟨d, hd, hd2.symm⟩
  by_cases hs : srt = true
  · rw [if_pos hs] at hit
    by_cases hrv : rev = true
    · rw [if_pos hrv] at hit
      exact pool (sortLess_mem _ _ _ hit)
    · rw [if_neg hrv] at hit
      exact pool (sortLess_mem _ _ _ hit)
  · rw [if_neg hs] at hit
    by_cases hrv : rev = true
    · rw [if_pos hrv] at hit
      exact pool (List.mem_reverse.mp hit)
    · rw [if_neg hrv] at hit
      exact pool hit

/-- One walked item per sequence element. -/
theorem seqIterItems_length (xs : List Datum) (rev srt : Bool) :
    (seqIterItems xs rev srt).length = xs.length := by
  simp only [seqIterItems]
  by_cases hs : srt = true
  · rw [if_pos hs]
    by_cases hrv : rev = true
    · rw [if_pos hrv, sortLess_length, List.length_map]
    · rw [if_neg hrv, sortLess_length, List.length_map]
  · rw [if_neg hs]
    by_cases hrv : rev = true
    · rw [if_pos hrv, List.length_reverse, List.length_map]
    · rw [if_neg hrv, List.length_map]

/-- One walked code point per character. -/
theorem strIterChars_length (s : String) (rev srt : Bool) :
    (strIterChars s rev srt).length = s.data.length := by
  simp only [strIterChars]
  by_cases hrv : rev = true
  · rw [if_pos hrv, List.length_reverse]
    by_cases hs : srt = true
    · rw [if_pos hs, sortLess_length]
    · rw [if_neg hs]
  · rw [if_neg hrv]
    by_cases hs : srt = true
    · rw [if_pos hs, sortLess_length]
    · rw [if_neg hs]

/-- Projection of a conditional result. -/
theorem ite_visits (c : Prop) [inst : Decidable c] (a b : IterResult) :
    (if c then a else b).visits = if c then a.visits else b.visits := by
  split <;> rfl

/-- Projection of a conditional result. -/
theorem ite_emptyCalls (c : Prop) [inst : Decidable c] (a b : IterResult) :
    (if c then a else b).emptyCalls = if c then a.emptyCalls else b.emptyCalls := by
  split <;> rfl

/-- C10: every transforming operation (`Negate`, `Slice`, `Index`) and the
key/value Values produced during iteration carry `safe = false`, even
when the receiver was built with `safe = true`; the marker never
propagates to derived Values. -/
theorem derived_values_not_safe (v : Value) (i j : Nat)
    (fn : Nat → Nat → Value → Option Value → Bool) (rev srt : Bool) :
    v.Negate.safe = false ∧
    (∀ w, v.Slice i j = some w → w.safe = false) ∧
    (v.Index i).1.safe = false ∧
    (∀ rec ∈ (v.IterateOrder fn rev srt).visits,
      rec.2.2.1.safe = false ∧ ∀ w, rec.2.2.2 = some w → w.safe = false) := by
  refine ⟨?_, ?_, ?_, ?_⟩
  · unfold Value.Negate
    split <;> first | rfl | (split <;> rfl)
  · intro w hw
    unfold Value.Slice at hw
    split at hw
    · split at hw
      · injection hw with hw2; subst hw2; rfl
      · cases hw
    · split at hw
      · injection hw with hw2; subst hw2; rfl
      · cases hw
    · injection hw with hw2; subst hw2; rfl
  · unfold Value.Index
    split <;> first | rfl | (split <;> rfl)
  · intro rec hmem
    obtain ⟨ridx, rcount, rkey, rval⟩ := rec
    simp only [Value.IterateOrder] at hmem
    split at hmem
    · have hp := visitLoop_mem fn _ 0 _ _ hmem
      rcases List.mem_map.mp hp with ⟨k, hk, hfk⟩
      injection hfk with h1 h2
      subst h1; subst h2
      exact ⟨rfl, fun w hw => by injection hw with hw2; subst hw2; rfl⟩
    · rw [ite_visits] at hmem
      split at hmem
      · have hp := visitLoop_mem fn _ 0 _ _ hmem
        rcases List.mem_map.mp hp with ⟨it, hit, hfk⟩
        injection hfk with h1 h2
        subst h1; subst h2
        rcases seqIterItems_mem _ _ _ it hit with ⟨d, _, hd⟩
        subst hd
        exact ⟨rfl, fun w hw => by cases hw⟩
      · simp at hmem
    · rw [ite_visits] at hmem
      split at hmem
      · have hp := visitLoop_mem fn _ 0 _ _ hmem
        rcases List.mem_map.mp hp with ⟨c, hc, hfk⟩
        injection hfk with h1 h2
        subst h1; subst h2
        exact ⟨rfl, fun w hw => by cases hw⟩
      · simp at hmem
    · simp at hmem

/-- C10 witness: a safe-marked receiver still yields unsafe derived
Values from `Negate`, `Slice`, `Index` and iteration. -/
theorem derived_values_not_safe_witness :
    (AsSafeValue (.seqD [.intD 1])).Negate.safe = false ∧
    ((AsSafeValue (.seqD [.intD 1])).Index 0).1.safe = false ∧
    (∀ w, (AsSafeValue (.seqD [.intD 1])).Slice 0 1 = some w → w.safe = false) := by
  refine ⟨(derived_values_not_safe (AsSafeValue (.seqD [.intD 1])) 0 1
      (fun _ _ _ _ => true) false false).1,
    (derived_values_not_safe (AsSafeValue (.seqD [.intD 1])) 0 1
      (fun _ _ _ _ => true) false false).2.2.1, ?_⟩
  intro w hw
  exact (derived_values_not_safe (AsSafeValue (.seqD [.intD 1])) 0 1
    (fun _ _ _ _ => true) false false).2.1 w hw

/-- C5: when the resolved value is an empty mapping, empty sequence or
empty text, or its kind is not iterable at all, `Iterate` and
`IterateOrder` invoke `onEmpty` exactly once and never invoke `visit`. -/
theorem iterate_empty_contract (v : Value)
    (fn : Nat → Nat → Value → Option Value → Bool) (rev srt : Bool)
    (h : (∃ kk, v.getResolvedValue = .mapD kk []) ∨ v.getResolvedValue = .seqD [] ∨
      v.getResolvedValue = .strD "" ∨
      (v.getResolvedValue.goKind ≠ .mapK ∧ v.getResolvedValue.goKind ≠ .sliceK ∧
       v.getResolvedValue.goKind ≠ .stringK)) :
    (v.IterateOrder fn rev srt).visits = [] ∧
    (v.IterateOrder fn rev srt).emptyCalls = 1 ∧
    (v.Iterate fn).visits = [] ∧ (v.Iterate fn).emptyCalls = 1 := by
  have key : ∀ rv st : Bool, (v.IterateOrder fn rv st).visits = [] ∧
      (v.IterateOrder fn rv st).emptyCalls = 1 := by
    intro rv st
    rcases h with ⟨kk, hr⟩ | hr | hr | ⟨h1, h2, h3⟩
    · have hkeys : mapIterKeys ([] : List (Datum × Datum)) rv st = [] :=
        List.length_eq_zero.mp (by rw [mapIterKeys_length]; rfl)
      constructor
      · simp only [Value.IterateOrder, hr, hkeys]
        rfl
      · simp only [Value.IterateOrder, hr, hkeys]
        rfl
    · have hitems : seqIterItems [] rv st = [] :=
        List.length_eq_zero.mp (by rw [seqIterItems_length]; rfl)
      constructor
      · simp only [Value.IterateOrder, hr]
        rw [ite_visits, if_neg (by rw [hitems]; simp)]
      · simp only [Value.IterateOrder, hr]
        rw [ite_emptyCalls, if_neg (by rw [hitems]; simp)]
    · constructor
      · simp only [Value.IterateOrder, hr]
        rw [ite_visits, if_neg (by decide)]
      · simp only [Value.IterateOrder, hr]
        rw [ite_emptyCalls, if_neg (by decide)]
    · rcases hres : v.getResolvedValue with _ | b | n | n | q | s | t | xs | ⟨kk, es⟩ | fs | d <;>
        rw [hres] at h1 h2 h3 <;>
        first
          | (exact absurd rfl h1)
          | (exact absurd rfl h2)
          | (exact absurd rfl h3)
          | (exact ⟨by simp only [Value.IterateOrder, hres], by simp only [Value.IterateOrder, hres]⟩)
  exact ⟨(key rev srt).1, (key rev srt).2, (key false false).1, (key false false).2⟩

/-- C5 witness: an empty sequence, an empty map, the empty string and a
non-iterable integer. -/
theorem iterate_empty_contract_witness :
    ((AsValue (.seqD [])).IterateOrder (fun _ _ _ _ => true) false false).visits = [] ∧
    ((AsValue (.seqD [])).IterateOrder (fun _ _ _ _ => true) false false).emptyCalls = 1 ∧
    ((AsValue (.mapD .intK [])).Iterate (fun _ _ _ _ => true)).emptyCalls = 1 ∧
    ((AsValue (.strD "")).Iterate (fun _ _ _ _ => true)).emptyCalls = 1 ∧
    ((AsValue (.intD 5)).Iterate (fun _ _ _ _ => true)).emptyCalls = 1 := by
  refine ⟨?_, ?_, ?_, ?_, ?_⟩
  · exact (iterate_empty_contract (AsValue (.seqD [])) (fun _ _ _ _ => true) false false
      (Or.inr (Or.inl rfl))).1
  · exact (iterate_empty_contract (AsValue (.seqD [])) (fun _ _ _ _ => true) false false
      (Or.inr (Or.inl rfl))).2.1
  · exact (iterate_empty_contract (AsValue (.mapD .intK [])) (fun _ _ _ _ => true) false false
      (Or.inl ⟨.intK, rfl⟩)).2.2.2
  · exact (iterate_empty_contract (AsValue (.strD "")) (fun _ _ _ _ => true) false false
      (Or.inr (Or.inr (Or.inl rfl)))).2.2.2
  · exact (iterate_empty_contract (AsValue (.intD 5)) (fun _ _ _ _ => true) false false
      (Or.inr (Or.inr (Or.inr ⟨by decide, by decide, by decide⟩)))).2.2.2

/-- The all-true run records the whole stream, indexed in order. -/
theorem visitLoop_true_eq (count : Nat) :
    ∀ (idx : Nat) (L : List (Value × Option Value)),
      visitLoop (fun _ _ _ _ => true) count idx L =
        (List.enumFrom idx L).map (fun p => (p.1, count, p.2.1, p.2.2)) := by
  intro idx L
  induction L generalizing idx with
  | nil => rfl
  | cons p rest ih =>
      obtain ⟨k, val⟩ := p
      simp [visitLoop, List.enumFrom, ih (idx + 1)]

/-- The all-true run makes one visit per stream element. -/
theorem visitLoop_true_length (count idx : Nat) (L : List (Value × Option Value)) :
    (visitLoop (fun _ _ _ _ => true) count idx L).length = L.length := by
  rw [visitLoop_true_eq]
  simp

/-- Any run's visit trace is a prefix of the all-true run's. -/
theorem visitLoop_prefix_of_true (fn : Nat → Nat → Value → Option Value → Bool)
    (count : Nat) :
    ∀ (idx : Nat) (L : List (Value × Option Value)),
      visitLoop fn count idx L <+: visitLoop (fun _ _ _ _ => true) count idx L := by
  intro idx L
  induction L generalizing idx with
  | nil => exact List.nil_prefix
  | cons p rest ih =>
      obtain ⟨k, val⟩ := p
      by_cases hf : fn idx count k val = true
      · simp only [visitLoop, hf, if_true]
        exact List.cons_prefix_cons.mpr ⟨rfl, ih (idx + 1)⟩
      · simp only [visitLoop, hf, if_false]
        exact List.cons_prefix_cons.mpr ⟨rfl, List.nil_prefix⟩

/-- Every visit before the last returned true. -/
theorem visitLoop_inner_true (fn : Nat → Nat → Value → Option Value → Bool)
    (count : Nat) :
    ∀ (idx : Nat) (L : List (Value × Option Value)) (i : Nat) (rec : Visit),
      (visitLoop fn count idx L)[i]? = some rec →
      i + 1 < (visitLoop fn count idx L).length →
      fn rec.1 rec.2.1 rec.2.2.1 rec.2.2.2 = true := by
  intro idx L
  induction L generalizing idx with
  | nil =>
      intro i rec h hlt
      rw [show visitLoop fn count idx [] = [] from rfl] at h
      simp at h
  | cons p rest ih =>
      intro i rec h hlt
      obtain ⟨k, val⟩ := p
      by_cases hf : fn idx count k val = true
      · simp only [visitLoop, hf, if_true] at h hlt
        cases i with
        | zero =>
            simp only [List.getElem?_cons_zero, Option.some.injEq] at h
            subst h
            exact hf
        | succ i2 =>
            simp only [List.getElem?_cons_succ] at h
            refine ih (idx + 1) i2 rec h ?_
            simpa [Nat.succ_lt_succ_iff] using hlt
      · rw [Bool.not_eq_true] at hf
        simp [visitLoop, hf] at h hlt
  
/-- A run that stops before the end of the stream had its last visit
return false. -/
theorem visitLoop_stopped_false (fn : Nat → Nat → Value → Option Value → Bool)
    (count : Nat) :
    ∀ (idx : Nat) (L : List (Value × Option Value)),
      (visitLoop fn count idx L).length < L.length →
      ∀ rec : Visit, (visitLoop fn count idx L).getLast? = some rec →
        fn rec.1 rec.2.1 rec.2.2.1 rec.2.2.2 = false := by
  intro idx L
  induction L generalizing idx with
  | nil =>
      intro h
      rw [show visitLoop fn count idx [] = [] from rfl] at h
      simp at h
  | cons p rest ih =>
      intro h rec hlast
      obtain ⟨k, val⟩ := p
      by_cases hf : fn idx count k val = true
      · simp only [visitLoop, hf, if_true] at h hlast
        have h2 : (visitLoop fn count (idx + 1) rest).length < rest.length := by
          simp only [List.length_cons] at h
          omega
        have htail : visitLoop fn count (idx + 1) rest ≠ [] := by
          have hrest : rest ≠ [] := by
            intro hr
            subst hr
            simp [visitLoop] at h2
          cases rest with
          | nil => exact absurd rfl hrest
          | cons q qs =>
              obtain ⟨k2, v2⟩ := q
              by_cases hf2 : fn (idx + 1) count k2 v2 = true <;>
                simp [visitLoop, hf2]
        rcases htl : visitLoop fn count (idx + 1) rest with _ | ⟨t, ts⟩
        · exact absurd htl htail
        · rw [htl, List.getLast?_cons_cons] at hlast
          refine ih (idx + 1) h2 rec ?_
          rw [htl]
          exact hlast
      · rw [Bool.not_eq_true] at hf
        simp [visitLoop, hf] at hlast
        subst hlast
        exact hf

/-- A non-iterable resolved kind makes any `IterateOrder` call degrade to
the empty outcome. -/
theorem iterateOrder_not_iterable (v : Value)
    (g : Nat → Nat → Value → Option Value → Bool) (rev srt : Bool)
    (h1 : v.getResolvedValue.goKind ≠ .mapK)
    (h2 : v.getResolvedValue.goKind ≠ .sliceK)
    (h3 : v.getResolvedValue.goKind ≠ .stringK) :
    v.IterateOrder g rev srt = ⟨[], 1⟩ := by
  rcases hres : v.getResolvedValue with _ | b | n | n' | q | s | t | xs | ⟨kk0, es0⟩ | fs | d <;>
    rw [hres] at h1 h2 h3 <;>
    first
      | (exact absurd rfl h1)
      | (exact absurd rfl h2)
      | (exact absurd rfl h3)
      | (simp only [Value.IterateOrder, hres])

/-- The visit contract holds vacuously on non-iterable kinds. -/
theorem iterate_contract_not_iterable (v : Value)
    (fn : Nat → Nat → Value → Option Value → Bool) (rev srt : Bool)
    (h1 : v.getResolvedValue.goKind ≠ .mapK)
    (h2 : v.getResolvedValue.goKind ≠ .sliceK)
    (h3 : v.getResolvedValue.goKind ≠ .stringK) :
    ((v.IterateOrder fn rev srt).visits <+:
      (v.IterateOrder (fun _ _ _ _ => true) rev srt).visits) ∧
    (∀ kk es, v.getResolvedValue = .mapD kk es →
      (v.IterateOrder (fun _ _ _ _ => true) rev srt).visits.length = es.length) ∧
    (∀ xs, v.getResolvedValue = .seqD xs →
      (v.IterateOrder (fun _ _ _ _ => true) rev srt).visits.length = xs.length) ∧
    (∀ s, v.getResolvedValue = .strD s →
      (v.IterateOrder (fun _ _ _ _ => true) rev srt).visits.length = s.data.length) ∧
    (∀ i rec, (v.IterateOrder fn rev srt).visits[i]? = some rec →
      i + 1 < (v.IterateOrder fn rev srt).visits.length →
      fn rec.1 rec.2.1 rec.2.2.1 rec.2.2.2 = true) ∧
    ((v.IterateOrder fn rev srt).visits.length <
        (v.IterateOrder (fun _ _ _ _ => true) rev srt).visits.length →
      ∀ rec, (v.IterateOrder fn rev srt).visits.getLast? = some rec →
        fn rec.1 rec.2.1 rec.2.2.1 rec.2.2.2 = false) ∧
    ((v.IterateOrder (fun _ _ _ _ => true) rev srt).visits ≠ [] →
      (v.IterateOrder fn rev srt).emptyCalls = 0) := by
  have hV : ∀ g : Nat → Nat → Value → Option Value → Bool,
      v.IterateOrder g rev srt = ⟨[], 1⟩ :=
    fun g => iterateOrder_not_iterable v g rev srt h1 h2 h3
  refine ⟨?_, ?_, ?_, ?_, ?_, ?_, ?_⟩
  · rw [hV fn, hV]
  · intro kk es h
    exact absurd (by rw [h]; rfl) h1
  · intro xs h
    exact absurd (by rw [h]; rfl) h2
  · intro s h
    exact absurd (by rw [h]; rfl) h3
  · intro i rec h hlt
    rw [hV fn] at h
    simp at h
  · intro hlt
    rw [hV fn, hV (fun _ _ _ _ => true)] at hlt
    simp at hlt
  · intro hne
    exfalso
    apply hne
    rw [hV (fun _ _ _ _ => true)]

/-- C6: `visit` runs once per element of the chosen order — the all-true
run makes exactly one visit per element of the resolved container, and
any run's visit trace is a prefix of the all-true run's; every visit
before the last returned true; a run that stops before the end of the
stream had its last visit return false (so after a false nothing further
is visited); and `onEmpty` is never invoked when the container is
non-empty. -/
theorem iterate_visit_contract (v : Value)
    (fn : Nat → Nat → Value → Option Value → Bool) (rev srt : Bool) :
    ((v.IterateOrder fn rev srt).visits <+:
      (v.IterateOrder (fun _ _ _ _ => true) rev srt).visits) ∧
    (∀ kk es, v.getResolvedValue = .mapD kk es →
      (v.IterateOrder (fun _ _ _ _ => true) rev srt).visits.length = es.length) ∧
    (∀ xs, v.getResolvedValue = .seqD xs →
      (v.IterateOrder (fun _ _ _ _ => true) rev srt).visits.length = xs.length) ∧
    (∀ s, v.getResolvedValue = .strD s →
      (v.IterateOrder (fun _ _ _ _ => true) rev srt).visits.length = s.data.length) ∧
    (∀ i rec, (v.IterateOrder fn rev srt).visits[i]? = some rec →
      i + 1 < (v.IterateOrder fn rev srt).visits.length →
      fn rec.1 rec.2.1 rec.2.2.1 rec.2.2.2 = true) ∧
    ((v.IterateOrder fn rev srt).visits.length <
        (v.IterateOrder (fun _ _ _ _ => true) rev srt).visits.length →
      ∀ rec, (v.IterateOrder fn rev srt).visits.getLast? = some rec →
        fn rec.1 rec.2.1 rec.2.2.1 rec.2.2.2 = false) ∧
    ((v.IterateOrder (fun _ _ _ _ => true) rev srt).visits ≠ [] →
      (v.IterateOrder fn rev srt).emptyCalls = 0) := by
  obtain ⟨dres, hres⟩ : ∃ d, v.getResolvedValue = d := ⟨_, rfl⟩
  rcases dres with _ | b | n | n' | q | s | t | xs | ⟨kk0, es0⟩ | fs | d
  · exact iterate_contract_not_iterable v fn rev srt
      (by rw [hres]; simp [Datum.goKind]) (by rw [hres]; simp [Datum.goKind])
      (by rw [hres]; simp [Datum.goKind])
  · exact iterate_contract_not_iterable v fn rev srt
      (by rw [hres]; simp [Datum.goKind]) (by rw [hres]; simp [Datum.goKind])
      (by rw [hres]; simp [Datum.goKind])
  · exact iterate_contract_not_iterable v fn rev srt
      (by rw [hres]; simp [Datum.goKind]) (by rw [hres]; simp [Datum.goKind])
      (by rw [hres]; simp [Datum.goKind])
  · exact iterate_contract_not_iterable v fn rev srt
      (by rw [hres]; simp [Datum.goKind]) (by rw [hres]; simp [Datum.goKind])
      (by rw [hres]; simp [Datum.goKind])
  · exact iterate_contract_not_iterable v fn rev srt
      (by rw [hres]; simp [Datum.goKind]) (by rw [hres]; simp [Datum.goKind])
      (by rw [hres]; simp [Datum.goKind])
  · -- strD s
    by_cases hpos : 0 < s.data.length
    · have hrwV : ∀ g : Nat → Nat → Value → Option Value → Bool,
          (v.IterateOrder g rev srt).visits = visitLoop g s.data.length 0
            ((strIterChars s rev srt).map (fun c =>
              ((⟨.strD (String.mk [c]), false⟩ : Value), none))) := by
        intro g
        simp only [Value.IterateOrder, hres]
        rw [ite_visits, if_pos hpos]
      have hrwE : ∀ g : Nat → Nat → Value → Option Value → Bool,
          (v.IterateOrder g rev srt).emptyCalls = 0 := by
        intro g
        simp only [Value.IterateOrder, hres]
        rw [ite_emptyCalls, if_pos hpos]
      have hLlen : ((strIterChars s rev srt).map (fun c =>
          ((⟨.strD (String.mk [c]), false⟩ : Value), (none : Option Value)))).length
            = s.data.length := by
        rw [List.length_map, strIterChars_length]
      refine ⟨?_, ?_, ?_, ?_, ?_, ?_, ?_⟩
      · rw [hrwV fn, hrwV (fun _ _ _ _ => true)]
        exact visitLoop_prefix_of_true _ _ _ _
      · intro kk es h
        rw [hres] at h
        exact Datum.noConfusion h
      · intro xs h
        rw [hres] at h
        exact Datum.noConfusion h
      · intro s2 h
        rw [hres] at h
        injection h with he
        subst he
        rw [hrwV (fun _ _ _ _ => true), visitLoop_true_length, hLlen]
      · intro i rec h hlt
        rw [hrwV fn] at h hlt
        exact visitLoop_inner_true fn _ 0 _ i rec h hlt
      · intro hlt rec hlast
        rw [hrwV fn] at hlt hlast
        rw [hrwV (fun _ _ _ _ => true), visitLoop_true_length, ← hLlen] at hlt
        rw [hLlen] at hlt
        refine visitLoop_stopped_false fn _ 0 _ ?_ rec hlast
        rw [hLlen]
        exact hlt
      · intro hne
        exact hrwE fn
    · have hrw : ∀ g : Nat → Nat → Value → Option Value → Bool,
          v.IterateOrder g rev srt = ⟨[], 1⟩ := by
        intro g
        simp only [Value.IterateOrder, hres]
        rw [if_neg hpos]
      refine ⟨?_, ?_, ?_, ?_, ?_, ?_, ?_⟩
      · rw [hrw fn, hrw]
      · intro kk es h
        rw [hres] at h
        exact Datum.noConfusion h
      · intro xs h
        rw [hres] at h
        exact Datum.noConfusion h
      · intro s2 h
        rw [hres] at h
        injection h with he
        subst he
        rw [hrw (fun _ _ _ _ => true)]
        simp only [List.length_nil]
        omega
      · intro i rec h hlt
        rw [hrw fn] at h
        simp at h
      · intro hlt
        rw [hrw fn, hrw (fun _ _ _ _ => true)] at hlt
        simp at hlt
      · intro hne
        exfalso
        apply hne
        rw [hrw (fun _ _ _ _ => true)]
  · exact iterate_contract_not_iterable v fn rev srt
      (by rw [hres]; simp [Datum.goKind]) (by rw [hres]; simp [Datum.goKind])
      (by rw [hres]; simp [Datum.goKind])
  · -- seqD xs
    by_cases hpos : 0 < (seqIterItems xs rev srt).length
    · have hrwV : ∀ g : Nat → Nat → Value → Option Value → Bool,
          (v.IterateOrder g rev srt).visits = visitLoop g xs.length 0
            ((seqIterItems xs rev srt).map (fun it => (it, none))) := by
        intro g
        simp only [Value.IterateOrder, hres]
        rw [ite_visits, if_pos hpos]
      have hrwE : ∀ g : Nat → Nat → Value → Option Value → Bool,
          (v.IterateOrder g rev srt).emptyCalls = 0 := by
        intro g
        simp only [Value.IterateOrder, hres]
        rw [ite_emptyCalls, if_pos hpos]
      have hLlen : ((seqIterItems xs rev srt).map
          (fun it => (it, (none : Option Value)))).length = xs.length := by
        rw [List.length_map, seqIterItems_length]
      refine ⟨?_, ?_, ?_, ?_, ?_, ?_, ?_⟩
      · rw [hrwV fn, hrwV (fun _ _ _ _ => true)]
        exact visitLoop_prefix_of_true _ _ _ _
      · intro kk es h
        rw [hres] at h
        exact Datum.noConfusion h
      · intro xs2 h
        rw [hres] at h
        injection h with he
        subst he
        rw [hrwV (fun _ _ _ _ => true), visitLoop_true_length, hLlen]
      · intro s2 h
        rw [hres] at h
        exact Datum.noConfusion h
      · intro i rec h hlt
        rw [hrwV fn] at h hlt
        exact visitLoop_inner_true fn _ 0 _ i rec h hlt
      · intro hlt rec hlast
        rw [hrwV fn] at hlt hlast
        rw [hrwV (fun _ _ _ _ => true), visitLoop_true_length] at hlt
        exact visitLoop_stopped_false fn _ 0 _ hlt rec hlast
      · intro hne
        exact hrwE fn
    · have hrw : ∀ g : Nat → Nat → Value → Option Value → Bool,
          v.IterateOrder g rev srt = ⟨[], 1⟩ := by
        intro g
        simp only [Value.IterateOrder, hres]
        rw [if_neg hpos]
      refine ⟨?_, ?_, ?_, ?_, ?_, ?_, ?_⟩
      · rw [hrw fn, hrw]
      · intro kk es h
        rw [hres] at h
        exact Datum.noConfusion h
      · intro xs2 h
        rw [hres] at h
        injection h with he
        subst he
        rw [hrw (fun _ _ _ _ => true)]
        simp only [List.length_nil]
        have hl := seqIterItems_length xs rev srt
        omega
      · intro s2 h
        rw [hres] at h
        exact Datum.noConfusion h
      · intro i rec h hlt
        rw [hrw fn] at h
        simp at h
      · intro hlt
        rw [hrw fn, hrw (fun _ _ _ _ => true)] at hlt
        simp at hlt
      · intro hne
        exfalso
        apply hne
        rw [hrw (fun _ _ _ _ => true)]
  · -- mapD kk0 es0
    have hrwV : ∀ g : Nat → Nat → Value → Option Value → Bool,
        (v.IterateOrder g rev srt).visits = visitLoop g (mapIterKeys es0 rev srt).length 0
          ((mapIterKeys es0 rev srt).map (fun k =>
            ((⟨k, false⟩ : Value), some (⟨(mapIndexD es0 k).getD .nilD, false⟩ : Value)))) := by
      intro g
      simp only [Value.IterateOrder, hres]
    have hrwE : ∀ g : Nat → Nat → Value → Option Value → Bool,
        (v.IterateOrder g rev srt).emptyCalls =
          if (mapIterKeys es0 rev srt).length = 0 then 1 else 0 := by
      intro g
      simp only [Value.IterateOrder, hres]
    have hLlen : ((mapIterKeys es0 rev srt).map (fun k =>
        ((⟨k, false⟩ : Value), some (⟨(mapIndexD es0 k).getD .nilD, false⟩ : Value)))).length
          = es0.length := by
      rw [List.length_map, mapIterKeys_length]
    refine ⟨?_, ?_, ?_, ?_, ?_, ?_, ?_⟩
    · rw [hrwV fn, hrwV (fun _ _ _ _ => true)]
      exact visitLoop_prefix_of_true _ _ _ _
    · intro kk es h
      rw [hres] at h
      injection h with hk he
      subst he
      rw [hrwV (fun _ _ _ _ => true), visitLoop_true_length, hLlen]
    · intro xs h
      rw [hres] at h
      exact Datum.noConfusion h
    · intro s2 h
      rw [hres] at h
      exact Datum.noConfusion h
    · intro i rec h hlt
      rw [hrwV fn] at h hlt
      exact visitLoop_inner_true fn _ 0 _ i rec h hlt
    · intro hlt rec hlast
      rw [hrwV fn] at hlt hlast
      rw [hrwV (fun _ _ _ _ => true), visitLoop_true_length] at hlt
      exact visitLoop_stopped_false fn _ 0 _ hlt rec hlast
    · intro hne
      rw [hrwE fn]
      by_cases h0 : (mapIterKeys es0 rev srt).length = 0
      · exfalso
        apply hne
        rw [hrwV (fun _ _ _ _ => true)]
        have hk0 : mapIterKeys es0 rev srt = [] := List.length_eq_zero.mp h0
        rw [hk0]
        rfl
      · rw [if_neg h0]
  · exact iterate_contract_not_iterable v fn rev srt
      (by rw [hres]; simp [Datum.goKind]) (by rw [hres]; simp [Datum.goKind])
      (by rw [hres]; simp [Datum.goKind])
  · exact iterate_contract_not_iterable v fn rev srt
      (by rw [hres]; simp [Datum.goKind]) (by rw [hres]; simp [Datum.goKind])
      (by rw [hres]; simp [Datum.goKind])

/-- C6 witness: a 3-element sequence with an always-false visitor makes
exactly one visit, and `onEmpty` is not invoked. -/
theorem iterate_visit_contract_witness :
    ((AsValue (.seqD [.intD 3, .intD 1, .intD 2])).IterateOrder
      (fun _ _ _ _ => false) false false).emptyCalls = 0 ∧
    ((AsValue (.seqD [.intD 3, .intD 1, .intD 2])).IterateOrder
      (fun _ _ _ _ => false) false false).visits.length = 1 := by
  have hlen : ((AsValue (.seqD [.intD 3, .intD 1, .intD 2])).IterateOrder
      (fun _ _ _ _ => true) false false).visits.length = 3 := rfl
  constructor
  · apply (iterate_visit_contract (AsValue (.seqD [.intD 3, .intD 1, .intD 2]))
      (fun _ _ _ _ => false) false false).2.2.2.2.2.2
    intro h
    rw [h] at hlen
    simp at hlen
  · rfl
